import Mathlib

/-!
Verification of the feature-extraction and tissue-mask core of the
histocartography preprocessing pipeline.

The Python sources embedded here are
`histocartography/preprocessing/feature_extraction.py` and
`histocartography/preprocessing/tissue_mask.py`.  Images and instance maps
are modelled as lists of rows (row-major order, as numpy arrays).  Feature
values are modelled as exact rationals or reals; machine floats of the
source are mapped to exact arithmetic.  Third-party library calls
(skimage `regionprops`, `threshold_otsu`, rank `entropy`, `ndimage.label`,
cv2 colour conversion / dilation) are opaque external collaborators of the
repository and enter as explicit function parameters or abstract per-region
data, while everything the repository itself computes is translated
directly.  Fallible numpy operations (argmax of an empty array, fancy
indexing out of range) are modelled with `Except`.
-/

namespace Histo

/-- Grid of values (a 2-D numpy array): list of rows, row-major. -/
abbrev Grid (α : Type) := List (List α)

/-- An RGB pixel (three 8-bit channels of the source image). -/
structure RGB where
  r : ℕ
  g : ℕ
  b : ℕ
deriving DecidableEq, Repr

/-- Row-major flattening of a grid, i.e. numpy `ravel`. -/
def flattenG {α : Type} (g : Grid α) : List α := g.flatten

/-- The strictly positive entries of a grid in row-major order,
i.e. numpy `a[a > 0]`. -/
def positivesG (g : Grid ℕ) : List ℕ := (flattenG g).filter (fun x => 0 < x)

/-- Insert a value into a strictly sorted list, keeping it strictly
sorted and duplicate-free. -/
def insertSortedNodup (x : ℕ) : List ℕ → List ℕ
  | [] => [x]
  | y :: ys =>
    if x < y then x :: y :: ys
    else if x = y then y :: ys
    else y :: insertSortedNodup x ys

/-- numpy `unique`: the distinct values of a list in ascending order. -/
def uniqueSorted (l : List ℕ) : List ℕ := l.foldr insertSortedNodup []

/-- numpy `argmax`: index of the first occurrence of the maximal element;
`none` on the empty array (numpy raises a `ValueError` there).  The head
wins ties against the rest, and the tail is resolved recursively, which is
exactly first-occurrence-of-maximum semantics. -/
def argmaxIdx : List ℕ → Option ℕ
  | [] => none
  | x :: xs =>
    match argmaxIdx xs with
    | none => some 0
    | some j => if x < xs.getD j 0 then some (j + 1) else some 0

/-- numpy index resolution for an array of length `n`: indices in
`[0, n)` are taken as is, indices in `[-n, 0)` wrap around, anything
else is an `IndexError` (`none`). -/
def npIdx (n : ℕ) (i : ℤ) : Option ℕ :=
  if 0 ≤ i ∧ i < (n : ℤ) then some i.toNat
  else if -(n : ℤ) ≤ i ∧ i < 0 then some (i + n).toNat
  else none

/-- Contiguous block `i` of size `bs` of a flat row-major buffer: the
row (rank 2) or instance sub-array (rank 3) `data[i]`. -/
def npSlice (data : List ℚ) (bs i : ℕ) : List ℚ := (data.drop (i * bs)).take bs

/-- Column-wise sum of a list of rows of width `d`. -/
def sumCols (d : ℕ) (rows : List (List ℚ)) : List ℚ :=
  rows.foldr (fun r acc => List.zipWith (· + ·) r acc) (List.replicate d 0)

/-- numpy `mean(axis=0)` over a stack of rows of width `d`. -/
def meanCols (d : ℕ) (rows : List (List ℚ)) : List ℚ :=
  (sumCols d rows).map (fun x => x / (rows.length : ℚ))

/-- A torch tensor: its shape and its flat row-major data. -/
structure Tensor where
  shape : List ℕ
  data : List ℚ
deriving DecidableEq, Repr

/-- A translator, `Dict[int, np.ndarray]` in the source: association list
from merged instance id to the original instance ids assigned to it, in
insertion order (Python dicts preserve insertion order). -/
abbrev Translator := List (ℕ × List ℕ)

/-- Body of the write loop shared verbatim by
`AverageFeatureMerger._merge_features` (block size = `latent_dim`) and
`AverageFeatureMerger._merge_augmented_features` (block size =
`nr_augmentations * latent_dim`): for a translator item `(index, values)`,
write output block `index - 1` as the elementwise mean of input blocks
`values - 1`.  Reading a block out of range is an `IndexError`; numpy
would silently produce NaN for a mean over an empty selection and garbage
for never-written `np.empty` output rows, and we flag both undefined
results as explicit errors instead. -/
def gatherRows (nrows bs : ℕ) (data : List ℚ) : List ℕ → Except String (List (List ℚ))
  | [] => Except.ok []
  | v :: vs =>
    match npIdx nrows ((v : ℤ) - 1) with
    | some i => (gatherRows nrows bs data vs).map (fun rest => npSlice data bs i :: rest)
    | none => Except.error "IndexError"

def mergeStep (nrows bs m : ℕ) (data : List ℚ) (acc : List (Option (List ℚ)))
    (kv : ℕ × List ℕ) : Except String (List (Option (List ℚ))) := do
  let rows ← gatherRows nrows bs data kv.2
  if rows.isEmpty then Except.error "mean of empty selection" else
  match npIdx m ((kv.1 : ℤ) - 1) with
  | some j => Except.ok (acc.set j (some (meanCols bs rows)))
  | none => Except.error "IndexError"

/-- Turn the written output rows into the final tensor data; a row the
loop never wrote is an undefined `np.empty` value, flagged as an error. -/
def collectRows (out : List (Option (List ℚ))) : Except String (List (List ℚ)) :=
  out.mapM (fun o =>
    match o with
    | some r => Except.ok r
    | none => Except.error "undefined output row")

/-- `AverageFeatureMerger._merge_features`: allocate
`np.empty((len(translator), latent_dim))` and run the write loop over the
translator items with block size `latent_dim = features.shape[1]`. -/
def mergeFeaturesT (t : Tensor) (tr : Translator) : Except String Tensor :=
  let n := t.shape.getD 0 0
  let d := t.shape.getD 1 0
  let m := tr.length
  (tr.foldlM (mergeStep n d m t.data)
    (List.replicate m (none : Option (List ℚ)))) >>= fun out =>
  collectRows out >>= fun rows =>
  Except.ok ⟨[m, d], rows.flatten⟩

/-- `AverageFeatureMerger._merge_augmented_features`: as `mergeFeaturesT`
but each instance occupies a contiguous `(nr_augmentations, latent_dim)`
block of the flat buffer, and the mean runs over the instance axis. -/
def mergeAugmentedFeaturesT (t : Tensor) (tr : Translator) : Except String Tensor :=
  let n := t.shape.getD 0 0
  let a := t.shape.getD 1 0
  let d := t.shape.getD 2 0
  let m := tr.length
  (tr.foldlM (mergeStep n (a * d) m t.data)
    (List.replicate m (none : Option (List ℚ)))) >>= fun out =>
  collectRows out >>= fun rows =>
  Except.ok ⟨[m, a, d], rows.flatten⟩

/-- `AverageFeatureMerger.process`: dispatch on the rank of the feature
tensor; rank 2 and 3 are merged, anything else raises
`NotImplementedError`. -/
def averageMergerProcess (t : Tensor) (tr : Translator) : Except String Tensor :=
  if t.shape.length = 2 then mergeFeaturesT t tr
  else if t.shape.length = 3 then mergeAugmentedFeaturesT t tr
  else Except.error "NotImplementedError"

/-- The identity translator on ids `1..n`: merged id `k` receives exactly
the original id `k`. -/
def idTranslator (n : ℕ) : Translator :=
  (List.range n).map (fun j => (j + 1, [j + 1]))

/-- numpy `a.max()`: maximum entry of a flat array (0 on the empty array,
which numpy would reject; no claim depends on that corner). -/
def maxList (l : List ℕ) : ℕ := l.foldr max 0

/-- `merged_instance_map[instance_map == i]`: the merged-map values at the
pixels of original instance `i`, in row-major order. -/
def maskedValues (inst merged : Grid ℕ) (i : ℕ) : List ℕ :=
  ((flattenG inst).zip (flattenG merged)).filterMap
    (fun p => if p.1 = i then some p.2 else none)

/-- `assignments[counts.argmax()]` for
`assignments, counts = np.unique(l, return_counts=True)`: the smallest
value of maximal multiplicity, `none` on the empty list (numpy raises a
`ValueError` from `argmax` there). -/
def uniqueArgmax (l : List ℕ) : Option ℕ :=
  let assignments := uniqueSorted l
  let counts := assignments.map (fun v => l.count v)
  match argmaxIdx counts with
  | none => none
  | some j => some (assignments.getD j 0)

/-- `defaultdict(list)` append, `translator[k].append(v)`: appends to the
existing entry of key `k`, or inserts the key at the end (Python dicts
keep insertion order). -/
def assocAppend (tr : Translator) (k v : ℕ) : Translator :=
  match tr with
  | [] => [(k, [v])]
  | (k0, l0) :: rest =>
    if k0 = k then (k0, l0 ++ [v]) :: rest else (k0, l0) :: assocAppend rest k v

/-- `np.concatenate(list(translator.values()))`. -/
def allTranslatorValues (tr : Translator) : List ℕ := (tr.map Prod.snd).flatten

/-- The first two asserts of `FeatureMerger._check_translator_consistency`
for one merged-map value: membership in the translator and a non-empty
assignment list. -/
def keyOk (tr : Translator) (v : ℕ) : Bool :=
  match tr.lookup v with
  | some l => !l.isEmpty
  | none => false

/-- `FeatureMerger._check_translator_consistency`: for every value present
in the merged map the translator has a non-empty entry; the concatenated
assigned ids contain no duplicates; every value present in the original
map occurs among the assigned ids.  Each violated assert raises. -/
def checkTranslatorConsistency (inst merged : Grid ℕ) (tr : Translator) :
    Except String Unit :=
  if !((uniqueSorted (flattenG merged)).all (fun v => keyOk tr v)) then
    Except.error "merged instance id is not mapped to any superpixel"
  else if ¬ (allTranslatorValues tr).Nodup then
    Except.error "mapped values contain duplicates"
  else if !((uniqueSorted (flattenG inst)).all
      (fun v => decide (v ∈ allTranslatorValues tr))) then
    Except.error "initial instance id does not appear in translator"
  else Except.ok ()

/-- One iteration of the loop of `FeatureMerger._get_translator` for
original id `i`: find the mode of the merged-map values over the pixels of
instance `i` and append `i` to that merged id's list; an instance id with
no pixels makes `argmax` fail on an empty array. -/
def translatorStep (inst merged : Grid ℕ) (acc : Translator) (i : ℕ) :
    Except String Translator :=
  match uniqueArgmax (maskedValues inst merged i) with
  | some a => Except.ok (assocAppend acc a i)
  | none => Except.error "attempt to get argmax of an empty sequence"

/-- `FeatureMerger._get_translator`: run the assignment loop over
`range(1, instance_map.max() + 1)` and validate the result with
`_check_translator_consistency`. -/
def getTranslator (inst merged : Grid ℕ) : Except String Translator :=
  let nrSpx := maxList (flattenG inst) + 1
  ((List.range' 1 (nrSpx - 1)).foldlM (translatorStep inst merged) []) >>=
    fun tr => (checkTranslatorConsistency inst merged tr).map (fun _ => tr)

/-- Spec-side notion for claim C4: the number of pixels of original
instance `i` covered by merged-map value `b`. -/
def overlapCount (inst merged : Grid ℕ) (i b : ℕ) : ℕ :=
  ((flattenG inst).zip (flattenG merged)).countP
    (fun p => decide (p.1 = i) && decide (p.2 = b))

/-- Spec-side notion for claim C4, written from the specification text:
merged id `k` covers the plurality of the pixels of original instance `i`,
with ties broken towards the smaller merged id (first maximum under the
ascending order of `np.unique`). -/
def AssignedToPlurality (inst merged : Grid ℕ) (i k : ℕ) : Prop :=
  0 < overlapCount inst merged i k ∧
  (∀ b, overlapCount inst merged i b ≤ overlapCount inst merged i k) ∧
  (∀ b < k, overlapCount inst merged i b < overlapCount inst merged i k)

/-- The 12 shape descriptors read from one skimage `regionprops` region
(an external library collaborator, so the values are abstract reals), in
the order `_extract_features` lists them. -/
structure ShapeProps where
  area : ℝ
  convex_area : ℝ
  eccentricity : ℝ
  equivalent_diameter : ℝ
  euler_number : ℝ
  extent : ℝ
  filled_area : ℝ
  major_axis_length : ℝ
  minor_axis_length : ℝ
  orientation : ℝ
  perimeter : ℝ
  solidity : ℝ

/-- One region of `regionprops(instance_map)`: its label and its shape
descriptors. -/
structure RegionData where
  label : ℕ
  props : ShapeProps

/-- `feats_shape`: the 12 shape descriptors in source order. -/
def shapeFeats (p : ShapeProps) : List ℝ :=
  [p.area, p.convex_area, p.eccentricity, p.equivalent_diameter,
   p.euler_number, p.extent, p.filled_area, p.major_axis_length,
   p.minor_axis_length, p.orientation, p.perimeter, p.solidity]

/-- `np.histogram(codes, bins=np.arange(0, 257, 32))`: 8 equal bins of
width 32 over [0, 256], the last bin closed on the right as numpy closes
its final bin edge. -/
def histogram8 (codes : List ℕ) : List ℕ :=
  (List.range 8).map (fun k =>
    codes.countP (fun x =>
      decide (32 * k ≤ x) &&
        (decide (x < 32 * (k + 1)) || (decide (k = 7) && decide (x = 256)))))

/-- `np.mean` of 8-bit values as a real. -/
noncomputable def meanR (l : List ℕ) : ℝ :=
  ((l.map (fun (x : ℕ) => (x : ℝ))).sum) / (l.length : ℝ)

/-- `np.std`: square root of the biased variance. -/
noncomputable def stdR (l : List ℕ) : ℝ :=
  Real.sqrt (((l.map (fun (x : ℕ) => ((x : ℝ) - meanR l) ^ 2)).sum) /
    (l.length : ℝ))

/-- Insertion sort on naturals keeping duplicates, for `np.median`. -/
def insertSorted (x : ℕ) : List ℕ → List ℕ
  | [] => [x]
  | y :: ys => if x ≤ y then x :: y :: ys else y :: insertSorted x ys

/-- Ascending sort keeping duplicates. -/
def sortNat (l : List ℕ) : List ℕ := l.foldr insertSorted []

/-- `np.median`: middle element of the sorted data, or the mean of the two
middle elements for even length. -/
noncomputable def medianR (l : List ℕ) : ℝ :=
  if l.length % 2 = 1 then (((sortNat l).getD (l.length / 2) 0 : ℕ) : ℝ)
  else ((((sortNat l).getD (l.length / 2 - 1) 0 : ℕ) : ℝ) +
    (((sortNat l).getD (l.length / 2) 0 : ℕ) : ℝ)) / 2

/-- scipy `skew` with its default biased estimator: the third standardised
central moment `m3 / m2^(3/2)`. -/
noncomputable def skewR (l : List ℕ) : ℝ :=
  let m := meanR l
  let m2 := ((l.map (fun (x : ℕ) => ((x : ℝ) - m) ^ 2)).sum) / (l.length : ℝ)
  let m3 := ((l.map (fun (x : ℕ) => ((x : ℝ) - m) ^ 3)).sum) / (l.length : ℝ)
  m3 / m2 ^ ((3 : ℝ) / 2)

/-- `HandcraftedFeatureExtractor._color_features_per_channel`: 8 histogram
bin fractions, then mean, std, median and skewness of the masked channel
values, then the mean of the masked squared-channel values — 13 entries
per channel (the source comment itself says `[13 x 3 features]`). -/
noncomputable def colorFeaturesPerChannel (codes sqcodes : List ℕ)
    (maskSize : ℕ) : List ℝ :=
  (histogram8 codes).map (fun (c : ℕ) => (c : ℝ) / (maskSize : ℝ)) ++
    [meanR codes, stdR codes, medianR codes, skewR codes, meanR sqcodes]

/-- `np.where(sp_mask != 0)`: row-major positions of the pixels carrying a
given instance label. -/
def maskIdx (instMap : Grid ℕ) (label : ℕ) : List (ℕ × ℕ) :=
  (instMap.enum.map (fun r =>
    r.2.enum.filterMap (fun c =>
      if c.2 = label then some (r.1, c.1) else none))).flatten

/-- Pixel access (all uses stay inside the grid). -/
def imgAt (img : Grid RGB) (i j : ℕ) : RGB := (img.getD i []).getD j ⟨0, 0, 0⟩

/-- One colour channel sampled at the instance pixels: since
`sp_rgb = cv2.bitwise_and(input_image, input_image, mask=sp_mask)` agrees
with the input image on the mask, `sp_rgb[..][mask_idx]` is the plain
channel value at each mask position. -/
def channelCodes (ch : RGB → ℕ) (img : Grid RGB) (instMap : Grid ℕ)
    (label : ℕ) : List ℕ :=
  (maskIdx instMap label).map (fun p => ch (imgAt img p.1 p.2))

/-- `np.square(input_image)` sampled at the instance pixels; on the uint8
input image the square wraps modulo 256. -/
def channelSqCodes (ch : RGB → ℕ) (img : Grid RGB) (instMap : Grid ℕ)
    (label : ℕ) : List ℕ :=
  (maskIdx instMap label).map (fun p => (ch (imgAt img p.1 p.2) ^ 2) % 256)

/-- `img_gray * sp_mask`: the cv2 grayscale image zeroed outside the
instance. -/
def spGray (imgGray : Grid ℕ) (instMap : Grid ℕ) (label : ℕ) : Grid ℕ :=
  (imgGray.zip instMap).map (fun rows =>
    (rows.1.zip rows.2).map (fun p => if p.2 = label then p.1 else 0))

/-- skimage `greycomatrix(g, [1], [0])[a, b, 0, 0]`: the number of
horizontal neighbour pairs with values `(a, b)`. -/
def glcmCount (g : Grid ℕ) (a b : ℕ) : ℕ :=
  (g.map (fun row => (row.zip row.tail).countP
    (fun p => decide (p.1 = a) && decide (p.2 = b)))).sum

/-- Total mass of the GLCM with the zero row and column removed
(`glcm[1:, 1:, :, :]`, gray levels 1..255); skimage `greycoprops`
normalises by it, replacing a zero sum by 1. -/
def glcmTotal (g : Grid ℕ) : ℕ :=
  ((List.range' 1 255).map (fun a =>
    ((List.range' 1 255).map (fun b => glcmCount g a b)).sum)).sum

noncomputable def glcmNorm (g : Grid ℕ) : ℝ :=
  if glcmTotal g = 0 then 1 else (glcmTotal g : ℝ)

/-- Weighted sum of the normalised filtered GLCM entries against a
per-cell weight, the common shape of the `greycoprops` statistics. -/
noncomputable def glcmSum (g : Grid ℕ) (f : ℕ → ℕ → ℝ) : ℝ :=
  ((List.range' 1 255).map (fun (a : ℕ) =>
    ((List.range' 1 255).map (fun (b : ℕ) =>
      ((glcmCount g a b : ℝ) / glcmNorm g) * f a b)).sum)).sum

noncomputable def glcmContrast (g : Grid ℕ) : ℝ :=
  glcmSum g (fun a b => ((a : ℝ) - (b : ℝ)) ^ 2)

noncomputable def glcmDissimilarity (g : Grid ℕ) : ℝ :=
  glcmSum g (fun a b => |(a : ℝ) - (b : ℝ)|)

noncomputable def glcmHomogeneity (g : Grid ℕ) : ℝ :=
  glcmSum g (fun a b => 1 / (1 + ((a : ℝ) - (b : ℝ)) ^ 2))

noncomputable def glcmASM (g : Grid ℕ) : ℝ :=
  ((List.range' 1 255).map (fun (a : ℕ) =>
    ((List.range' 1 255).map (fun (b : ℕ) =>
      ((glcmCount g a b : ℝ) / glcmNorm g) ^ 2)).sum)).sum

noncomputable def glcmEnergy (g : Grid ℕ) : ℝ := Real.sqrt (glcmASM g)

/-- `cv2.mean(img_entropy, mask=sp_mask)[0]`: average of the entropy image
over the instance pixels.  The entropy image is the output of the skimage
rank `entropy` filter with a `disk(3)` element, an external library
collaborator passed in as an abstract per-pixel function. -/
noncomputable def entropyMean (entropyImg : ℕ → ℕ → ℝ) (instMap : Grid ℕ)
    (label : ℕ) : ℝ :=
  ((maskIdx instMap label).map (fun (p : ℕ × ℕ) => entropyImg p.1 p.2)).sum /
    ((maskIdx instMap label).length : ℝ)

/-- `feats_texture`: entropy followed by the five GLCM statistics, in
source order. -/
noncomputable def textureFeats (imgGray : Grid ℕ) (entropyImg : ℕ → ℕ → ℝ)
    (instMap : Grid ℕ) (label : ℕ) : List ℝ :=
  [entropyMean entropyImg instMap label,
   glcmContrast (spGray imgGray instMap label),
   glcmDissimilarity (spGray imgGray instMap label),
   glcmHomogeneity (spGray imgGray instMap label),
   glcmEnergy (spGray imgGray instMap label),
   glcmASM (spGray imgGray instMap label)]

/-- One row of `HandcraftedFeatureExtractor._extract_features`: shape,
then the three colour channels, then texture, concatenated in source
order (`sp_feats = feats_shape + feats_color + feats_texture`).
`imgGray` is the cv2 grayscale conversion of the input image and
`entropyImg` the skimage entropy image, both external collaborators. -/
noncomputable def instanceFeatures (img : Grid RGB) (imgGray : Grid ℕ)
    (entropyImg : ℕ → ℕ → ℝ) (instMap : Grid ℕ) (r : RegionData) : List ℝ :=
  shapeFeats r.props ++
    (colorFeaturesPerChannel (channelCodes RGB.r img instMap r.label)
      (channelSqCodes RGB.r img instMap r.label)
      (maskIdx instMap r.label).length ++
     colorFeaturesPerChannel (channelCodes RGB.g img instMap r.label)
      (channelSqCodes RGB.g img instMap r.label)
      (maskIdx instMap r.label).length ++
     colorFeaturesPerChannel (channelCodes RGB.b img instMap r.label)
      (channelSqCodes RGB.b img instMap r.label)
      (maskIdx instMap r.label).length) ++
    textureFeats imgGray entropyImg instMap r.label

/-- `HandcraftedFeatureExtractor._extract_features`: one feature row per
region of `regionprops(instance_map)` (the region list, in ascending
label order with background excluded, is an input from the external
`regionprops`). -/
noncomputable def extractHandcrafted (img : Grid RGB) (imgGray : Grid ℕ)
    (entropyImg : ℕ → ℕ → ℝ) (instMap : Grid ℕ)
    (regions : List RegionData) : List (List ℝ) :=
  regions.map (fun r => instanceFeatures img imgGray entropyImg instMap r)

/-- Instance-map access, `instance_map[i, j]` (all uses stay inside the
grid). -/
def mapAt (g : Grid ℕ) (i j : ℕ) : ℕ := (g.getD i []).getD j 0

/-- The fields of one skimage `regionprops` region that
`InstanceMapPatchDataset._get_instance_patch` reads: the label, the
centroid after `int(round(...))`, and the bounding box
`(min_row, min_col, max_row, max_col)` (external `regionprops` output;
for real regions the centroid lies in the box and the box in the
image). -/
structure PatchRegion where
  label : ℕ
  centroidX : ℕ
  centroidY : ℕ
  bminX : ℕ
  bminY : ℕ
  bmaxX : ℕ
  bmaxY : ℕ
deriving DecidableEq, Repr

/-- One axis of the crop-window computation of `_get_instance_patch`:
start from the bounding box when masking (`fill_value` set), switch to a
centroid-centred window of half-width `size // 2` when not masking or
when the box side exceeds the patch size, then clip to `[0, bound]`
(`min_x = max(0, min_x)`, `max_x = min(shape, max_x)`). -/
def axisWindow (fillSet : Bool) (c bmin bmax bound size : ℕ) : ℕ × ℕ :=
  let p : ℤ × ℤ :=
    if fillSet = false ∨ bmax - bmin > size then
      ((c : ℤ) - (size / 2 : ℕ), (c : ℤ) + (size / 2 : ℕ))
    else ((bmin : ℤ), (bmax : ℤ))
  ((max 0 p.1).toNat, (min (bound : ℤ) p.2).toNat)

/-- The clipped crop window of `_get_instance_patch`, both axes. -/
structure CropWindow where
  minX : ℕ
  maxX : ℕ
  minY : ℕ
  maxY : ℕ
deriving DecidableEq, Repr

def cropWindow (fillValue : Option ℕ) (size H W : ℕ) (r : PatchRegion) :
    CropWindow :=
  let x := axisWindow fillValue.isSome r.centroidX r.bminX r.bmaxX H size
  let y := axisWindow fillValue.isSome r.centroidY r.bminY r.bmaxY W size
  ⟨x.1, x.2, y.1, y.2⟩

/-- `InstanceMapPatchDataset._get_instance_patch`.  Returns the patch
and the image after the call: when `fill_value` is set the source
executes `image_region[mask_region] = self.fill_value` on a numpy view
of `self.image`, so pixels of other instances inside the crop window are
overwritten in the caller's image itself; with `fill_value = None` the
image is untouched.  The two `assert length <= size` statements become
errors.  The slice copy
`output_image[tl_x : tl_x + x_len, tl_y : tl_y + y_len] = image_region`
is modelled pointwise: a patch pixel inside the centred copy region takes
the (masked) image pixel it is copied from and the initialisation fill
elsewhere. -/
def getInstancePatch (img : Grid RGB) (instMap : Grid ℕ)
    (fillValue : Option ℕ) (size : ℕ) (r : PatchRegion) :
    Except String (Grid RGB × Grid RGB) :=
  let H := img.length
  let W := (img.getD 0 []).length
  let w := cropWindow fillValue size H W r
  let xLen := w.maxX - w.minX
  let yLen := w.maxY - w.minY
  if xLen > size then Except.error "AssertionError"
  else if yLen > size then Except.error "AssertionError"
  else
    let fillPx : RGB := match fillValue with
      | some f => ⟨f, f, f⟩
      | none => ⟨255, 255, 255⟩
    let srcPx : ℕ → ℕ → RGB := fun i j =>
      match fillValue with
      | some f =>
        if mapAt instMap i j ≠ r.label then ⟨f, f, f⟩ else imgAt img i j
      | none => imgAt img i j
    let tlX := (size - xLen) / 2
    let tlY := (size - yLen) / 2
    let patch := (List.range size).map (fun i =>
      (List.range size).map (fun j =>
        if tlX ≤ i ∧ i < tlX + xLen ∧ tlY ≤ j ∧ j < tlY + yLen then
          srcPx (w.minX + (i - tlX)) (w.minY + (j - tlY))
        else fillPx))
    let newImg := match fillValue with
      | none => img
      | some f => (List.range H).map (fun i =>
          (List.range W).map (fun j =>
            if w.minX ≤ i ∧ i < w.maxX ∧ w.minY ≤ j ∧ j < w.maxY ∧
                mapAt instMap i j ≠ r.label then ⟨f, f, f⟩
            else imgAt img i j))
    Except.ok (patch, newImg)

/-- One batch write of `DeepFeatureExtractor._extract_features`:
`features[i, :] = embeddings`, where `i` is the tensor of dataset indices
the loader returned with this batch and the embedding of instance `j` is
a function `F j` of the instance index alone (the batch is collated from
`InstanceMapPatchDataset.__getitem__`, which returns `(index, patch)`
with the patch determined by the index). -/
def writeBatch {α : Type} (F : ℕ → α) (acc : List (Option α))
    (batch : List ℕ) : List (Option α) :=
  batch.foldl (fun a j => a.set j (some (F j))) acc

/-- The write loop of `DeepFeatureExtractor._extract_features`: allocate
`torch.empty(len(dataset), num_features)` — modelled as `n` undefined
rows — and write every batch at its explicit instance indices.  The
batch list is arbitrary: batches may split and order the indices any way
the parallel loader delivers them. -/
def deepExtractLoop {α : Type} (F : ℕ → α) (n : ℕ)
    (batches : List (List ℕ)) : List (Option α) :=
  batches.foldl (writeBatch F) (List.replicate n (none : Option α))

/-- All-zero grayscale image of the given dimensions. -/
def zeroGrid (h w : ℕ) : Grid ℕ := List.replicate h (List.replicate w 0)

/-- One step of the thresholding loop of `get_tissue_mask`
(tissue_mask.py): optionally gaussian-blur (only when `sigma > 0`),
compute the Otsu threshold over the positive pixels — `otsu` is skimage
`threshold_otsu`, whose `ValueError` on an empty array (`none`) the
source catches and replaces by the fallback threshold 0 — and zero out
every pixel below the threshold. -/
def otsuThreshStep (otsu : List ℕ → Option ℕ) (blur : Grid ℕ → Grid ℕ)
    (sigma : ℚ) (t : Grid ℕ) : Grid ℕ :=
  let t1 := if 0 < sigma then blur t else t
  let thresh := (otsu (positivesG t1)).getD 0
  t1.map (fun row => row.map (fun x => if x < thresh then 0 else x))

/-- `get_tissue_mask` on a grayscale thumbnail (an RGB input would first
pass through the external cv2 grayscale conversion and inversion; an
all-zero 2-D image enters this path directly).  After the thresholding
loop the mask is binarised, labelled into connected components by
`labelCC` (the external `ndimage.label`), components smaller than
`min_size` are discarded, and the largest component is selected by
`unique[np.argmax(counts)]` — where `argmax` raises an uncaught
`ValueError` whenever `counts` is empty. -/
def getTissueMask (otsu : List ℕ → Option ℕ) (labelCC : Grid ℕ → Grid ℕ)
    (blur : Grid ℕ → Grid ℕ) (nSteps : ℕ) (sigma : ℚ) (minSize : ℕ)
    (thumbnail0 : Grid ℕ) : Except String (Grid ℕ × Grid Bool) :=
  let thumbnail := (otsuThreshStep otsu blur sigma)^[nSteps] thumbnail0
  let maskBin := thumbnail.map (fun row =>
    row.map (fun x => if 0 < x then 1 else 0))
  let labeled := labelCC maskBin
  let pos := positivesG labeled
  let vals := uniqueSorted pos
  let counts := vals.map (fun v => pos.count v)
  let small := (vals.zip counts).filterMap
    (fun p => if p.2 < minSize then some p.1 else none)
  let labeled2 := labeled.map (fun row =>
    row.map (fun v => if v ∈ small then 0 else v))
  match argmaxIdx counts with
  | none => Except.error "attempt to get argmax of an empty sequence"
  | some j =>
    let top := vals.getD j 0
    Except.ok (labeled2, labeled2.map (fun row =>
      row.map (fun v => decide (v = top))))

/-- Elementwise `mask_ * image_gray` (`mask_` is 0/1 after the dilate). -/
def gridMulMask (mask imgGray : Grid ℕ) : Grid ℕ :=
  (mask.zip imgGray).map (fun rows =>
    (rows.1.zip rows.2).map (fun p => p.1 * p.2))

/-- The loop condition of `GaussianTissueMask.process`:
`image_masked[image_masked > 0].mean() < self.background_gray_value`.
numpy returns NaN for the mean over an empty selection (a runtime
warning, not an exception), and `NaN < background_gray_value` is
`False`, so the empty case yields `false` here. -/
def gtmCond (bg : ℚ) (imageMasked : List ℕ) : Bool :=
  let pos := imageMasked.filter (fun x => 0 < x)
  if pos.isEmpty then false
  else decide ((pos.map (fun (x : ℕ) => (x : ℚ))).sum / (pos.length : ℚ) < bg)

/-- `image[mask_ != 0] = (255, 255, 255)`. -/
def whiten (img : Grid RGB) (mask : Grid ℕ) : Grid RGB :=
  (img.zip mask).map (fun rows =>
    (rows.1.zip rows.2).map (fun p =>
      if p.2 ≠ 0 then ⟨255, 255, 255⟩ else p.1))

/-- `tissue_mask[mask_ != 0] = 1`. -/
def accumulateMask (acc : Grid ℕ) (mask : Grid ℕ) : Grid ℕ :=
  (acc.zip mask).map (fun rows =>
    (rows.1.zip rows.2).map (fun p => if p.2 ≠ 0 then 1 else p.1))

/-- The `while True` loop of `GaussianTissueMask.process`, with explicit
fuel (`none` = fuel exhausted).  `maskOf` abstracts the composite of
`get_tissue_mask` and the external `cv2.dilate`; `imgGray` is the cv2
grayscale of the downsampled input, computed once before the loop and
never updated.  While the mean of the positive masked grayscale pixels
stays below `background_gray_value`, the mask is accumulated and the
masked image pixels are whitened; otherwise the loop breaks and the
accumulated tissue mask is returned. -/
def gtmLoop (maskOf : Grid RGB → Grid ℕ) (imgGray : Grid ℕ) (bg : ℚ) :
    ℕ → Grid RGB → Grid ℕ → Option (Grid ℕ)
  | 0, _, _ => none
  | fuel + 1, img, acc =>
    let mask := maskOf img
    let imageMasked := gridMulMask mask imgGray
    if gtmCond bg (flattenG imageMasked) then
      gtmLoop maskOf imgGray bg fuel (whiten img mask)
        (accumulateMask acc mask)
    else some acc

/-- Decidable equality of `Except` results, so that concrete runs of the
embedded functions can be checked by `decide`. -/
instance {ε α : Type} [DecidableEq ε] [DecidableEq α] : DecidableEq (Except ε α) :=
  fun x y =>
    match x, y with
    | Except.error e1, Except.error e2 =>
      if h : e1 = e2 then isTrue (by rw [h])
      else isFalse (by intro hc; injection hc with hc; exact h hc)
    | Except.error _, Except.ok _ => isFalse (fun hc => Except.noConfusion hc)
    | Except.ok _, Except.error _ => isFalse (fun hc => Except.noConfusion hc)
    | Except.ok a1, Except.ok a2 =>
      if h : a1 = a2 then isTrue (by rw [h])
      else isFalse (by intro hc; injection hc with hc; exact h hc)

lemma except_bind_ok {α β : Type} (a : α) (f : α → Except String β) :
    (Except.ok a >>= f) = f a := rfl

lemma except_pure_eq {α : Type} (a : α) : (pure a : Except String α) = Except.ok a := rfl

lemma except_map_ok {α β : Type} (a : α) (f : α → β) :
    Except.map f (Except.ok a : Except String α) = Except.ok (f a) := rfl

lemma except_error_bind {α β : Type} (e : String) (f : α → Except String β) :
    (Except.error e : Except String α) >>= f = Except.error e := rfl

lemma argmaxIdx_cons_isSome (x : ℕ) (xs : List ℕ) : (argmaxIdx (x :: xs)).isSome := by
  simp only [argmaxIdx]
  cases argmaxIdx xs with
  | none => rfl
  | some j =>
    show (if x < xs.getD j 0 then some (j + 1) else some 0).isSome = true
    split <;> rfl

lemma argmaxIdx_eq_none_iff (l : List ℕ) : argmaxIdx l = none ↔ l = [] := by
  cases l with
  | nil => simp [argmaxIdx]
  | cons x xs =>
    constructor
    · intro h
      have hs := argmaxIdx_cons_isSome x xs
      rw [h] at hs
      simp at hs
    · intro h
      exact List.noConfusion h

/-- numpy `argmax` returns an in-range index of a maximal element, and
every strictly earlier entry is strictly smaller (first maximum). -/
lemma argmaxIdx_spec : ∀ (l : List ℕ) (j : ℕ), argmaxIdx l = some j →
    j < l.length ∧
    (∀ i < l.length, l.getD i 0 ≤ l.getD j 0) ∧
    (∀ i < j, l.getD i 0 < l.getD j 0) := by
  intro l
  induction l with
  | nil => intro j h; exact Option.noConfusion h
  | cons x xs ih =>
    intro j h
    simp only [argmaxIdx] at h
    cases hxs : argmaxIdx xs with
    | none =>
      simp only [hxs] at h
      injection h with h
      subst h
      have hnil : xs = [] := (argmaxIdx_eq_none_iff xs).mp hxs
      subst hnil
      refine ⟨by simp, ?_, by intro i hi; omega⟩
      intro i hi
      have hi0 : i = 0 := by simpa using hi
      subst hi0
      exact le_refl _
    | some jx =>
      simp only [hxs] at h
      obtain ⟨hjx, hmax, hfirst⟩ := ih jx hxs
      by_cases hcmp : x < xs.getD jx 0
      · rw [if_pos hcmp] at h
        injection h with h
        subst h
        refine ⟨by simpa using Nat.succ_lt_succ hjx, ?_, ?_⟩
        · intro i hi
          cases i with
          | zero => simpa using le_of_lt hcmp
          | succ i0 =>
            simp only [List.getD_cons_succ]
            exact hmax i0 (by simpa using hi)
        · intro i hi
          cases i with
          | zero => simpa using hcmp
          | succ i0 =>
            simp only [List.getD_cons_succ]
            exact hfirst i0 (by omega)
      · rw [if_neg hcmp] at h
        injection h with h
        subst h
        push_neg at hcmp
        refine ⟨by simp, ?_, by intro i hi; omega⟩
        intro i hi
        cases i with
        | zero => simp
        | succ i0 =>
          simp only [List.getD_cons_succ, List.getD_cons_zero]
          exact le_trans (hmax i0 (by simpa using hi)) hcmp

lemma mem_insertSortedNodup {a x : ℕ} :
    ∀ {l : List ℕ}, a ∈ insertSortedNodup x l ↔ a = x ∨ a ∈ l := by
  intro l
  induction l with
  | nil => simp [insertSortedNodup]
  | cons y ys ih =>
    simp only [insertSortedNodup]
    split_ifs with h1 h2
    · simp [List.mem_cons]
    · subst h2
      rw [List.mem_cons]
      tauto
    · simp only [List.mem_cons, ih]
      tauto

lemma sorted_insertSortedNodup {x : ℕ} :
    ∀ {l : List ℕ}, l.Sorted (· < ·) → (insertSortedNodup x l).Sorted (· < ·) := by
  intro l
  induction l with
  | nil => intro _; simp [insertSortedNodup]
  | cons y ys ih =>
    intro hs
    rw [List.sorted_cons] at hs
    simp only [insertSortedNodup]
    split_ifs with h1 h2
    · rw [List.sorted_cons]
      refine ⟨?_, by rw [List.sorted_cons]; exact hs⟩
      intro b hb
      rcases List.mem_cons.mp hb with rfl | hb
      · exact h1
      · exact lt_trans h1 (hs.1 b hb)
    · rw [List.sorted_cons]
      exact hs
    · rw [List.sorted_cons]
      refine ⟨?_, ih hs.2⟩
      intro b hb
      rcases mem_insertSortedNodup.mp hb with rfl | hb
      · omega
      · exact hs.1 b hb

lemma sorted_uniqueSorted (l : List ℕ) : (uniqueSorted l).Sorted (· < ·) := by
  induction l with
  | nil => simp [uniqueSorted]
  | cons x xs ih => exact sorted_insertSortedNodup ih

lemma mem_uniqueSorted {a : ℕ} : ∀ {l : List ℕ}, a ∈ uniqueSorted l ↔ a ∈ l := by
  intro l
  induction l with
  | nil => simp [uniqueSorted]
  | cons x xs ih =>
    show a ∈ insertSortedNodup x (uniqueSorted xs) ↔ _
    rw [mem_insertSortedNodup, ih, List.mem_cons]

/-- `assignments[counts.argmax()]` of `np.unique(l, return_counts=True)`
is a mode of `l`: it occurs, no value occurs more often, and every
smaller value occurs strictly less often. -/
lemma uniqueArgmax_spec {l : List ℕ} {a : ℕ} (h : uniqueArgmax l = some a) :
    a ∈ l ∧ (∀ b, l.count b ≤ l.count a) ∧ (∀ b < a, l.count b < l.count a) := by
  rw [uniqueArgmax] at h
  cases hj : argmaxIdx ((uniqueSorted l).map (fun v => l.count v)) with
  | none => rw [hj] at h; exact Option.noConfusion h
  | some j =>
    rw [hj] at h
    injection h with h
    obtain ⟨hjlen, hmax, hfirst⟩ :=
      argmaxIdx_spec ((uniqueSorted l).map (fun v => l.count v)) j hj
    rw [List.length_map] at hjlen
    have hcount : ∀ i, i < (uniqueSorted l).length →
        ((uniqueSorted l).map (fun v => l.count v)).getD i 0 =
          l.count ((uniqueSorted l).getD i 0) := by
      intro i hi
      rw [List.getD_eq_getElem?_getD, List.getD_eq_getElem?_getD,
        List.getElem?_map, List.getElem?_eq_getElem hi]
      rfl
    have ha_get : (uniqueSorted l).getD j 0 = a := h
    have ha_mem : a ∈ l := by
      rw [← ha_get]
      refine mem_uniqueSorted.mp ?_
      rw [List.getD_eq_getElem?_getD, List.getElem?_eq_getElem hjlen]
      exact List.getElem_mem hjlen
    refine ⟨ha_mem, ?_, ?_⟩
    · intro b
      by_cases hb : b ∈ l
      · obtain ⟨i, hi, hib⟩ := List.mem_iff_getElem.mp (mem_uniqueSorted.mpr hb)
        have hib' : (uniqueSorted l).getD i 0 = b := by
          rw [List.getD_eq_getElem?_getD, List.getElem?_eq_getElem hi, hib]
          rfl
        have := hmax i (by simpa using hi)
        rw [hcount i hi, hcount j hjlen, hib', ha_get] at this
        exact this
      · rw [List.count_eq_zero.mpr hb]
        exact Nat.zero_le _
    · intro b hba
      by_cases hb : b ∈ l
      · obtain ⟨i, hi, hib⟩ := List.mem_iff_getElem.mp (mem_uniqueSorted.mpr hb)
        have hib' : (uniqueSorted l).getD i 0 = b := by
          rw [List.getD_eq_getElem?_getD, List.getElem?_eq_getElem hi, hib]
          rfl
        have hij : i < j := by
          by_contra hij
          push_neg at hij
          rcases Nat.lt_or_ge j i with hji | hji
          · have := List.pairwise_iff_getElem.mp (sorted_uniqueSorted l) j i hjlen hi hji
            rw [hib] at this
            have haj : (uniqueSorted l)[j] = a := by
              rw [← ha_get, List.getD_eq_getElem?_getD, List.getElem?_eq_getElem hjlen]
              rfl
            rw [haj] at this
            omega
          · have hije : i = j := by omega
            subst hije
            have : (uniqueSorted l)[i] = a := by
              rw [← ha_get, List.getD_eq_getElem?_getD, List.getElem?_eq_getElem hi]
              rfl
            rw [hib] at this
            omega
        have := hfirst i hij
        rw [hcount i hi, hcount j hjlen, hib', ha_get] at this
        exact this
      · rw [List.count_eq_zero.mpr hb]
        exact List.count_pos_iff.mpr ha_mem

lemma uniqueArgmax_ne_nil {l : List ℕ} {a : ℕ} (h : uniqueArgmax l = some a) :
    l ≠ [] := by
  intro hl
  subst hl
  exact Option.noConfusion h

lemma mem_allValues_iff {tr : Translator} {x : ℕ} :
    x ∈ allTranslatorValues tr ↔ ∃ kv, kv ∈ tr ∧ x ∈ kv.2 := by
  simp only [allTranslatorValues, List.mem_flatten, List.mem_map]
  constructor
  · rintro ⟨l, ⟨kv, hkv, rfl⟩, hx⟩
    exact ⟨kv, hkv, hx⟩
  · rintro ⟨kv, hkv, hx⟩
    exact ⟨kv.2, ⟨kv, hkv, rfl⟩, hx⟩

/-- Every id recorded in a list after a `defaultdict` append came either
from the old translator under the same key, or is the appended id under
the appended key. -/
lemma mem_values_assocAppend {tr : Translator} {k v x : ℕ} {kv : ℕ × List ℕ}
    (h : kv ∈ assocAppend tr k v) (hx : x ∈ kv.2) :
    (∃ kv0, kv0 ∈ tr ∧ kv0.1 = kv.1 ∧ x ∈ kv0.2) ∨ (x = v ∧ kv.1 = k) := by
  induction tr with
  | nil =>
    simp only [assocAppend, List.mem_singleton] at h
    subst h
    right
    simpa using hx
  | cons hd rest ih =>
    obtain ⟨k0, l0⟩ := hd
    simp only [assocAppend] at h
    split_ifs at h with hk
    · rcases List.mem_cons.mp h with rfl | hrest
      · rcases List.mem_append.mp hx with hx0 | hxv
        · exact Or.inl ⟨(k0, l0), List.mem_cons_self .., rfl, hx0⟩
        · right
          exact ⟨by simpa using hxv, hk⟩
      · exact Or.inl ⟨kv, List.mem_cons_of_mem _ hrest, rfl, hx⟩
    · rcases List.mem_cons.mp h with rfl | hrest
      · exact Or.inl ⟨(k0, l0), List.mem_cons_self .., rfl, hx⟩
      · rcases ih hrest with ⟨kv0, hkv0, heq, hx0⟩ | hv
        · exact Or.inl ⟨kv0, List.mem_cons_of_mem _ hkv0, heq, hx0⟩
        · exact Or.inr hv

lemma mem_allValues_assocAppend {tr : Translator} {k v x : ℕ} :
    x ∈ allTranslatorValues (assocAppend tr k v) ↔
      x ∈ allTranslatorValues tr ∨ x = v := by
  induction tr with
  | nil => simp [assocAppend, allTranslatorValues]
  | cons hd rest ih =>
    obtain ⟨k0, l0⟩ := hd
    simp only [assocAppend]
    split_ifs with hk
    · simp only [allTranslatorValues, List.map_cons, List.flatten_cons,
        List.mem_append, List.mem_singleton] at *
      tauto
    · simp only [allTranslatorValues, List.map_cons, List.flatten_cons,
        List.mem_append] at *
      tauto

/-- Loop invariant of `_get_translator`: every id appearing in a value
list of the final translator was assigned there by `uniqueArgmax` over
its own masked merged-map values. -/
lemma translator_fold_inv (inst merged : Grid ℕ) :
    ∀ (ks : List ℕ) (acc tr : Translator),
      ks.foldlM (translatorStep inst merged) acc = Except.ok tr →
      (∀ kv ∈ acc, ∀ x ∈ kv.2,
        uniqueArgmax (maskedValues inst merged x) = some kv.1) →
      ∀ kv ∈ tr, ∀ x ∈ kv.2,
        uniqueArgmax (maskedValues inst merged x) = some kv.1 := by
  intro ks
  induction ks with
  | nil =>
    intro acc tr h hacc
    rw [List.foldlM_nil] at h
    injection h with h
    subst h
    exact hacc
  | cons i ks ih =>
    intro acc tr h hacc
    rw [List.foldlM_cons] at h
    cases hstep : uniqueArgmax (maskedValues inst merged i) with
    | none =>
      rw [translatorStep, hstep, except_error_bind] at h
      exact Except.noConfusion h
    | some a =>
      rw [translatorStep, hstep, except_bind_ok] at h
      refine ih _ _ h ?_
      intro kv hkv x hx
      rcases mem_values_assocAppend hkv hx with ⟨kv0, hkv0, heq, hx0⟩ | ⟨rfl, hkva⟩
      · rw [← heq]
        exact hacc kv0 hkv0 x hx0
      · rw [hkva]
        exact hstep

/-- Loop invariant of `_get_translator`: every id the loop still has to
process, and every id already recorded, ends up among the translator
values. -/
lemma translator_fold_mem (inst merged : Grid ℕ) :
    ∀ (ks : List ℕ) (acc tr : Translator),
      ks.foldlM (translatorStep inst merged) acc = Except.ok tr →
      ∀ x, (x ∈ ks ∨ x ∈ allTranslatorValues acc) →
        x ∈ allTranslatorValues tr := by
  intro ks
  induction ks with
  | nil =>
    intro acc tr h x hx
    rw [List.foldlM_nil] at h
    injection h with h
    subst h
    rcases hx with hx | hx
    · exact absurd hx (List.not_mem_nil x)
    · exact hx
  | cons i ks ih =>
    intro acc tr h x hx
    rw [List.foldlM_cons] at h
    cases hstep : uniqueArgmax (maskedValues inst merged i) with
    | none =>
      rw [translatorStep, hstep, except_error_bind] at h
      exact Except.noConfusion h
    | some a =>
      rw [translatorStep, hstep, except_bind_ok] at h
      refine ih _ _ h x ?_
      rcases hx with hx | hx
      · rcases List.mem_cons.mp hx with rfl | hks
        · exact Or.inr (mem_allValues_assocAppend.mpr (Or.inr rfl))
        · exact Or.inl hks
      · exact Or.inr (mem_allValues_assocAppend.mpr (Or.inl hx))

/-- A successful consistency check certifies its three assertions. -/
lemma check_ok_elim {inst merged : Grid ℕ} {tr : Translator}
    (h : checkTranslatorConsistency inst merged tr = Except.ok ()) :
    ((uniqueSorted (flattenG merged)).all (fun v => keyOk tr v)) = true ∧
    (allTranslatorValues tr).Nodup ∧
    ((uniqueSorted (flattenG inst)).all
      (fun v => decide (v ∈ allTranslatorValues tr))) = true := by
  rw [checkTranslatorConsistency] at h
  split_ifs at h with h1 h2 h3
  all_goals
    first
      | exact Except.noConfusion h
      | exact ⟨by simpa using h1, by simpa using h2, by simpa using h3⟩

lemma mem_of_maskedValues_ne_nil {inst merged : Grid ℕ} {i : ℕ}
    (h : maskedValues inst merged i ≠ []) : i ∈ flattenG inst := by
  obtain ⟨y, hy⟩ := List.exists_mem_of_ne_nil _ h
  rw [maskedValues, List.mem_filterMap] at hy
  obtain ⟨p, hp, hpy⟩ := hy
  by_cases hpi : p.1 = i
  · rw [← hpi]
    exact (List.of_mem_zip (show (p.1, p.2) ∈ _ by simpa using hp)).1
  · rw [if_neg hpi] at hpy
    exact Option.noConfusion hpy

/-- The mode count over the masked merged-map values is exactly the
pixel-overlap count of the claim. -/
lemma count_maskedValues (inst merged : Grid ℕ) (i b : ℕ) :
    (maskedValues inst merged i).count b = overlapCount inst merged i b := by
  rw [maskedValues, overlapCount, List.count_filterMap]
  refine List.countP_congr ?_
  intro p _
  by_cases h1 : p.1 = i <;> by_cases h2 : p.2 = b <;> simp [h1, h2]

/-- Inverting a successful `getTranslator` run into its two stages. -/
lemma getTranslator_ok_elim {inst merged : Grid ℕ} {tr : Translator}
    (h : getTranslator inst merged = Except.ok tr) :
    (List.range' 1 (maxList (flattenG inst) + 1 - 1)).foldlM
      (translatorStep inst merged) [] = Except.ok tr ∧
    checkTranslatorConsistency inst merged tr = Except.ok () := by
  rw [getTranslator] at h
  cases hfold : (List.range' 1 (maxList (flattenG inst) + 1 - 1)).foldlM
      (translatorStep inst merged) [] with
  | error e =>
    rw [hfold, except_error_bind] at h
    exact Except.noConfusion h
  | ok tr0 =>
    rw [hfold, except_bind_ok] at h
    cases hchk : checkTranslatorConsistency inst merged tr0 with
    | error e =>
      rw [hchk] at h
      exact Except.noConfusion h
    | ok u =>
      cases u
      rw [hchk, except_map_ok] at h
      injection h with h
      subst h
      exact ⟨rfl, hchk⟩

/-- Claim C3: whenever `_get_translator` returns a translator instead of
raising, every value present in the merged map is a key with a non-empty
assignment list, the concatenation of all assignment lists has no
duplicates, and the assigned ids are exactly the values present in the
original map.  The checks are performed by
`_check_translator_consistency`, whose violated assertions raise. -/
theorem translator_consistency (inst merged : Grid ℕ) (tr : Translator)
    (h : getTranslator inst merged = Except.ok tr) :
    (∀ v ∈ flattenG merged, ∃ l, tr.lookup v = some l ∧ l ≠ []) ∧
    (allTranslatorValues tr).Nodup ∧
    (∀ x, x ∈ allTranslatorValues tr ↔ x ∈ flattenG inst) := by
  obtain ⟨hfold, hchk⟩ := getTranslator_ok_elim h
  obtain ⟨hall1, hnodup, hall2⟩ := check_ok_elim hchk
  refine ⟨?_, hnodup, ?_⟩
  · intro v hv
    have hv1 : v ∈ uniqueSorted (flattenG merged) := mem_uniqueSorted.mpr hv
    have hko := List.all_eq_true.mp hall1 v hv1
    cases hlk : tr.lookup v with
    | none => rw [keyOk, hlk] at hko; exact Bool.noConfusion hko
    | some l =>
      rw [keyOk, hlk] at hko
      refine ⟨l, rfl, ?_⟩
      simpa using hko
  · intro x
    constructor
    · intro hx
      obtain ⟨kv, hkv, hxkv⟩ := mem_allValues_iff.mp hx
      have harg := translator_fold_inv inst merged _ [] tr hfold
        (by intro kv0 hkv0; exact absurd hkv0 (List.not_mem_nil kv0)) kv hkv x hxkv
      exact mem_of_maskedValues_ne_nil (uniqueArgmax_ne_nil harg)
    · intro hx
      have hx1 : x ∈ uniqueSorted (flattenG inst) := mem_uniqueSorted.mpr hx
      have := List.all_eq_true.mp hall2 x hx1
      simpa using this

/-- Witness for `translator_consistency` on a concrete pair of maps:
original map `[[1, 2], [2, 2]]`, merged map `[[1, 1], [1, 1]]` yields the
translator `{1: [1, 2]}`, whose values are duplicate-free and contain the
id 2 present in the original map. -/
theorem translator_consistency_witness :
    (allTranslatorValues [(1, [1, 2])]).Nodup ∧
    (2 ∈ allTranslatorValues [(1, [1, 2])] ↔ 2 ∈ flattenG [[1, 2], [2, 2]]) :=
  ⟨(translator_consistency [[1, 2], [2, 2]] [[1, 1], [1, 1]] [(1, [1, 2])]
      (by decide)).2.1,
    (translator_consistency [[1, 2], [2, 2]] [[1, 1], [1, 1]] [(1, [1, 2])]
      (by decide)).2.2 2⟩

/-- Counterexample to claim C4 as stated: for an original map whose
nonzero labels are 1 and 3 (a gap at 2), `_get_translator` does not skip
the absent id 2 — `np.unique` over the empty pixel selection of id 2
returns empty arrays and `counts.argmax()` raises a `ValueError`. -/
theorem translator_gap_raises :
    getTranslator [[1, 3]] [[1, 1]] =
      Except.error "attempt to get argmax of an empty sequence" := by
  decide

/-- Claim C4 (amended): `_get_translator` iterates over all ids
`1..instance_map.max()`; an absent id raises (`argmax` of an empty
sequence) rather than being skipped, so on success every id in that range
is present in the original map, and every returned assignment maps an
original id to the merged-map label covering the plurality of its pixels,
with ties broken towards the first maximum under the ascending value
order of `np.unique`, i.e. the smallest such label. -/
theorem translator_plurality (inst merged : Grid ℕ) (tr : Translator)
    (h : getTranslator inst merged = Except.ok tr) :
    (∀ i, 1 ≤ i → i ≤ maxList (flattenG inst) → i ∈ flattenG inst) ∧
    (∀ kv ∈ tr, ∀ i ∈ kv.2, AssignedToPlurality inst merged i kv.1) := by
  obtain ⟨hfold, _⟩ := getTranslator_ok_elim h
  have hinv := translator_fold_inv inst merged _ [] tr hfold
    (by intro kv0 hkv0; exact absurd hkv0 (List.not_mem_nil kv0))
  constructor
  · intro i h1 h2
    have hmem : i ∈ List.range' 1 (maxList (flattenG inst) + 1 - 1) := by
      rw [List.mem_range'_1]
      omega
    have hval := translator_fold_mem inst merged _ [] tr hfold i (Or.inl hmem)
    obtain ⟨kv, hkv, hxkv⟩ := mem_allValues_iff.mp hval
    exact mem_of_maskedValues_ne_nil (uniqueArgmax_ne_nil (hinv kv hkv i hxkv))
  · intro kv hkv i hi
    obtain ⟨hmem, hmax, hfirst⟩ := uniqueArgmax_spec (hinv kv hkv i hi)
    refine ⟨?_, ?_, ?_⟩
    · rw [← count_maskedValues]
      exact List.count_pos_iff.mpr hmem
    · intro b
      rw [← count_maskedValues, ← count_maskedValues]
      exact hmax b
    · intro b hb
      rw [← count_maskedValues, ← count_maskedValues]
      exact hfirst b hb

/-- Witness for `translator_plurality`: in the concrete run of
`translator_consistency_witness`, original id 2 is assigned to merged
label 1, which indeed covers the plurality of its pixels. -/
theorem translator_plurality_witness :
    AssignedToPlurality [[1, 2], [2, 2]] [[1, 1], [1, 1]] 2 1 :=
  (translator_plurality [[1, 2], [2, 2]] [[1, 1], [1, 1]] [(1, [1, 2])]
    (by decide)).2 (1, [1, 2]) (by decide) 2 (by decide)

lemma shapeFeats_length (p : ShapeProps) : (shapeFeats p).length = 12 := rfl

lemma histogram8_length (codes : List ℕ) : (histogram8 codes).length = 8 := by
  simp [histogram8]

lemma colorFeaturesPerChannel_length (codes sqcodes : List ℕ) (m : ℕ) :
    (colorFeaturesPerChannel codes sqcodes m).length = 13 := by
  rw [colorFeaturesPerChannel, List.length_append, List.length_map,
    histogram8_length]
  rfl

lemma textureFeats_length (imgGray : Grid ℕ) (entropyImg : ℕ → ℕ → ℝ)
    (instMap : Grid ℕ) (label : ℕ) :
    (textureFeats imgGray entropyImg instMap label).length = 6 := rfl

lemma instanceFeatures_length (img : Grid RGB) (imgGray : Grid ℕ)
    (entropyImg : ℕ → ℕ → ℝ) (instMap : Grid ℕ) (r : RegionData) :
    (instanceFeatures img imgGray entropyImg instMap r).length = 57 := by
  simp [instanceFeatures, List.length_append, shapeFeats_length,
    colorFeaturesPerChannel_length, textureFeats_length]

/-- Counterexample to claim C1 as stated: the handcrafted feature vector
does not have 72 entries — each colour channel contributes 13
descriptors (8 histogram bins, mean, std, median, skewness, energy), not
18, so the row length is 12 + 3 × 13 + 6 = 57.  Evaluated on a concrete
1×1 image with a single instance and trivial external inputs. -/
theorem handcrafted_vector_length_ne_72 :
    (instanceFeatures [[⟨10, 20, 30⟩]] [[17]] (fun _ _ => 0) [[1]]
      ⟨1, ⟨0, 0, 0, 0, 0, 0, 0, 0, 0, 0, 0, 0⟩⟩).length ≠ 72 := by
  rw [instanceFeatures_length]
  decide

/-- Claim C1 (amended): every row `_extract_features` produces has
exactly 57 = 12 + 3 × 13 + 6 entries, concatenated in the fixed order
12 shape descriptors, then 13 colour descriptors for each of R, G, B
(8-bin histogram fraction, mean, std, median, skewness,
energy-of-squared-channel), then 6 texture descriptors (entropy plus 5
GLCM statistics). -/
theorem handcrafted_feature_vector (img : Grid RGB) (imgGray : Grid ℕ)
    (entropyImg : ℕ → ℕ → ℝ) (instMap : Grid ℕ)
    (regions : List RegionData) :
    (∀ row ∈ extractHandcrafted img imgGray entropyImg instMap regions,
      row.length = 57) ∧
    (∀ r : RegionData,
      instanceFeatures img imgGray entropyImg instMap r =
        shapeFeats r.props ++
          (colorFeaturesPerChannel (channelCodes RGB.r img instMap r.label)
            (channelSqCodes RGB.r img instMap r.label)
            (maskIdx instMap r.label).length ++
           colorFeaturesPerChannel (channelCodes RGB.g img instMap r.label)
            (channelSqCodes RGB.g img instMap r.label)
            (maskIdx instMap r.label).length ++
           colorFeaturesPerChannel (channelCodes RGB.b img instMap r.label)
            (channelSqCodes RGB.b img instMap r.label)
            (maskIdx instMap r.label).length) ++
          textureFeats imgGray entropyImg instMap r.label ∧
      (shapeFeats r.props).length = 12 ∧
      (colorFeaturesPerChannel (channelCodes RGB.r img instMap r.label)
        (channelSqCodes RGB.r img instMap r.label)
        (maskIdx instMap r.label).length).length = 13 ∧
      (textureFeats imgGray entropyImg instMap r.label).length = 6) := by
  constructor
  · intro row hrow
    rw [extractHandcrafted, List.mem_map] at hrow
    obtain ⟨r, _, rfl⟩ := hrow
    exact instanceFeatures_length img imgGray entropyImg instMap r
  · intro r
    exact ⟨rfl, shapeFeats_length r.props,
      colorFeaturesPerChannel_length _ _ _, textureFeats_length _ _ _ _⟩

/-- Witness for `handcrafted_feature_vector` on a concrete 1×1 image with
one region: the single produced row has 57 entries. -/
theorem handcrafted_feature_vector_witness :
    (instanceFeatures [[⟨1, 2, 3⟩]] [[2]] (fun _ _ => 1) [[1]]
      ⟨1, ⟨1, 1, 1, 1, 1, 1, 1, 1, 1, 1, 1, 1⟩⟩).length = 57 :=
  (handcrafted_feature_vector [[⟨1, 2, 3⟩]] [[2]] (fun _ _ => 1) [[1]]
    [⟨1, ⟨1, 1, 1, 1, 1, 1, 1, 1, 1, 1, 1, 1⟩⟩]).1
    (instanceFeatures [[⟨1, 2, 3⟩]] [[2]] (fun _ _ => 1) [[1]]
      ⟨1, ⟨1, 1, 1, 1, 1, 1, 1, 1, 1, 1, 1, 1⟩⟩)
    (List.mem_singleton.mpr rfl)

/-- Per-axis safety of the crop window: the clipped upper end never
exceeds the image bound, the window length never exceeds the patch size
(so the asserts of `_get_instance_patch` pass), and — when the centroid
and a non-empty bounding box lie inside the image — every index of the
window stays below the bound. -/
lemma axisWindow_spec (fs : Bool) (c bmin bmax bound size : ℕ)
    (hc : c < bound) (hb1 : bmin < bmax) (hb2 : bmax ≤ bound) :
    (axisWindow fs c bmin bmax bound size).2 ≤ bound ∧
    (axisWindow fs c bmin bmax bound size).2 -
      (axisWindow fs c bmin bmax bound size).1 ≤ size ∧
    (axisWindow fs c bmin bmax bound size).1 +
      ((axisWindow fs c bmin bmax bound size).2 -
        (axisWindow fs c bmin bmax bound size).1) ≤ bound := by
  rw [axisWindow]
  split_ifs with h
  · simp only
    omega
  · simp only
    push_neg at h
    omega

lemma getD_map_range {α : Type} (n : ℕ) (g : ℕ → α) (d : α) (i : ℕ)
    (hi : i < n) : (((List.range n).map g).getD i d) = g i := by
  rw [List.getD_eq_getElem?_getD, List.getElem?_map, List.getElem?_range hi]
  rfl

lemma cropWindow_minX (fv : Option ℕ) (s H W : ℕ) (r : PatchRegion) :
    (cropWindow fv s H W r).minX =
      (axisWindow fv.isSome r.centroidX r.bminX r.bmaxX H s).1 := rfl

lemma cropWindow_maxX (fv : Option ℕ) (s H W : ℕ) (r : PatchRegion) :
    (cropWindow fv s H W r).maxX =
      (axisWindow fv.isSome r.centroidX r.bminX r.bmaxX H s).2 := rfl

lemma cropWindow_minY (fv : Option ℕ) (s H W : ℕ) (r : PatchRegion) :
    (cropWindow fv s H W r).minY =
      (axisWindow fv.isSome r.centroidY r.bminY r.bmaxY W s).1 := rfl

lemma cropWindow_maxY (fv : Option ℕ) (s H W : ℕ) (r : PatchRegion) :
    (cropWindow fv s H W r).maxY =
      (axisWindow fv.isSome r.centroidY r.bminY r.bmaxY W s).2 := rfl

/-- Claim C7: for every instance region whose centroid and non-empty
bounding box lie inside the image, `_get_instance_patch` passes its
asserts and returns a patch of exactly `size × size` pixels (each pixel
an RGB triple, i.e. shape `(size, size, 3)`), and the crop window it
copies from is clipped to the image bounds: its upper ends do not exceed
the image height and width and every copied source index stays below
them. -/
theorem instance_patch_shape_and_bounds (img : Grid RGB) (instMap : Grid ℕ)
    (fillValue : Option ℕ) (size : ℕ) (r : PatchRegion)
    (hbx1 : r.bminX < r.bmaxX) (hbx2 : r.bmaxX ≤ img.length)
    (hby1 : r.bminY < r.bmaxY) (hby2 : r.bmaxY ≤ (img.getD 0 []).length)
    (hcx : r.centroidX < img.length)
    (hcy : r.centroidY < (img.getD 0 []).length) :
    ∃ patch newImg,
      getInstancePatch img instMap fillValue size r =
        Except.ok (patch, newImg) ∧
      patch.length = size ∧
      (∀ row ∈ patch, row.length = size) ∧
      (cropWindow fillValue size img.length (img.getD 0 []).length r).maxX ≤
        img.length ∧
      (cropWindow fillValue size img.length (img.getD 0 []).length r).maxY ≤
        (img.getD 0 []).length ∧
      (cropWindow fillValue size img.length (img.getD 0 []).length r).minX +
        ((cropWindow fillValue size img.length (img.getD 0 []).length r).maxX -
          (cropWindow fillValue size img.length (img.getD 0 []).length r).minX) ≤
        img.length ∧
      (cropWindow fillValue size img.length (img.getD 0 []).length r).minY +
        ((cropWindow fillValue size img.length (img.getD 0 []).length r).maxY -
          (cropWindow fillValue size img.length (img.getD 0 []).length r).minY) ≤
        (img.getD 0 []).length := by
  obtain ⟨hxb, hxs, hxa⟩ := axisWindow_spec fillValue.isSome r.centroidX
    r.bminX r.bmaxX img.length size hcx hbx1 hbx2
  obtain ⟨hyb, hys, hya⟩ := axisWindow_spec fillValue.isSome r.centroidY
    r.bminY r.bmaxY (img.getD 0 []).length size hcy hby1 hby2
  simp only [getInstancePatch]
  rw [if_neg (by rw [cropWindow_maxX, cropWindow_minX]; omega),
    if_neg (by rw [cropWindow_maxY, cropWindow_minY]; omega)]
  refine ⟨_, _, rfl, by simp, ?_, ?_, ?_, ?_, ?_⟩
  · intro row hrow
    rw [List.mem_map] at hrow
    obtain ⟨i, _, rfl⟩ := hrow
    simp
  · rw [cropWindow_maxX]; exact hxb
  · rw [cropWindow_maxY]; exact hyb
  · rw [cropWindow_minX, cropWindow_maxX]; exact hxa
  · rw [cropWindow_minY, cropWindow_maxY]; exact hya

/-- Witness for `instance_patch_shape_and_bounds` on a concrete 2×2
image, a one-pixel instance and patch size 3. -/
theorem instance_patch_shape_and_bounds_witness :
    ∃ patch newImg,
      getInstancePatch
          [[⟨1, 1, 1⟩, ⟨2, 2, 2⟩], [⟨3, 3, 3⟩, ⟨4, 4, 4⟩]]
          [[1, 0], [0, 0]] none 3 ⟨1, 0, 0, 0, 0, 1, 1⟩ =
        Except.ok (patch, newImg) ∧
      patch.length = 3 ∧
      (∀ row ∈ patch, row.length = 3) ∧
      (cropWindow none 3 2 2 ⟨1, 0, 0, 0, 0, 1, 1⟩).maxX ≤ 2 ∧
      (cropWindow none 3 2 2 ⟨1, 0, 0, 0, 0, 1, 1⟩).maxY ≤ 2 ∧
      (cropWindow none 3 2 2 ⟨1, 0, 0, 0, 0, 1, 1⟩).minX +
        ((cropWindow none 3 2 2 ⟨1, 0, 0, 0, 0, 1, 1⟩).maxX -
          (cropWindow none 3 2 2 ⟨1, 0, 0, 0, 0, 1, 1⟩).minX) ≤ 2 ∧
      (cropWindow none 3 2 2 ⟨1, 0, 0, 0, 0, 1, 1⟩).minY +
        ((cropWindow none 3 2 2 ⟨1, 0, 0, 0, 0, 1, 1⟩).maxY -
          (cropWindow none 3 2 2 ⟨1, 0, 0, 0, 0, 1, 1⟩).minY) ≤ 2 :=
  instance_patch_shape_and_bounds
    [[⟨1, 1, 1⟩, ⟨2, 2, 2⟩], [⟨3, 3, 3⟩, ⟨4, 4, 4⟩]] [[1, 0], [0, 0]]
    none 3 ⟨1, 0, 0, 0, 0, 1, 1⟩ (by decide) (by decide) (by decide)
    (by decide) (by decide) (by decide)

/-- Claim C10: in mask mode (`fill_value` set) `_get_instance_patch`
writes through a numpy view into the caller's image: after a successful
call every image pixel inside the crop window that does not belong to the
current instance holds the fill value on all channels, and every other
pixel is unchanged — the input image is not left unchanged across patch
extractions. -/
theorem instance_patch_mutates_image (img : Grid RGB) (instMap : Grid ℕ)
    (f size : ℕ) (r : PatchRegion) (patch newImg : Grid RGB)
    (h : getInstancePatch img instMap (some f) size r =
      Except.ok (patch, newImg)) :
    ∀ i j, i < img.length → j < (img.getD 0 []).length →
      (((cropWindow (some f) size img.length (img.getD 0 []).length r).minX ≤ i ∧
          i < (cropWindow (some f) size img.length (img.getD 0 []).length r).maxX ∧
          (cropWindow (some f) size img.length (img.getD 0 []).length r).minY ≤ j ∧
          j < (cropWindow (some f) size img.length (img.getD 0 []).length r).maxY ∧
          mapAt instMap i j ≠ r.label) →
        imgAt newImg i j = ⟨f, f, f⟩) ∧
      (¬ ((cropWindow (some f) size img.length (img.getD 0 []).length r).minX ≤ i ∧
          i < (cropWindow (some f) size img.length (img.getD 0 []).length r).maxX ∧
          (cropWindow (some f) size img.length (img.getD 0 []).length r).minY ≤ j ∧
          j < (cropWindow (some f) size img.length (img.getD 0 []).length r).maxY ∧
          mapAt instMap i j ≠ r.label) →
        imgAt newImg i j = imgAt img i j) := by
  intro i j hi hj
  simp only [getInstancePatch] at h
  split_ifs at h with c1 c2
  injection h with hpair
  rw [Prod.mk.injEq] at hpair
  obtain ⟨hp, hn⟩ := hpair
  rw [← hn, imgAt, getD_map_range _ _ _ i hi, getD_map_range _ _ _ j hj]
  constructor
  · intro hcond
    rw [if_pos hcond]
  · intro hcond
    rw [if_neg hcond, imgAt]

/-- Witness for `instance_patch_mutates_image` on a concrete 2×2 image
with fill value 9 and patch size 2: the background pixel (0, 1) inside
the crop window is overwritten with the fill value in the returned image,
and the instance pixel (0, 0) is untouched. -/
theorem instance_patch_mutates_image_witness :
    imgAt [[⟨1, 1, 1⟩, ⟨9, 9, 9⟩], [⟨9, 9, 9⟩, ⟨9, 9, 9⟩]] 0 1 = ⟨9, 9, 9⟩ ∧
    imgAt [[⟨1, 1, 1⟩, ⟨9, 9, 9⟩], [⟨9, 9, 9⟩, ⟨9, 9, 9⟩]] 0 0 =
      imgAt [[⟨1, 1, 1⟩, ⟨2, 2, 2⟩], [⟨3, 3, 3⟩, ⟨4, 4, 4⟩]] 0 0 :=
  ⟨(instance_patch_mutates_image
      [[⟨1, 1, 1⟩, ⟨2, 2, 2⟩], [⟨3, 3, 3⟩, ⟨4, 4, 4⟩]] [[1, 0], [0, 0]]
      9 2 ⟨1, 0, 0, 0, 0, 2, 2⟩
      [[⟨1, 1, 1⟩, ⟨9, 9, 9⟩], [⟨9, 9, 9⟩, ⟨9, 9, 9⟩]]
      [[⟨1, 1, 1⟩, ⟨9, 9, 9⟩], [⟨9, 9, 9⟩, ⟨9, 9, 9⟩]]
      (by decide) 0 1 (by decide) (by decide)).1 (by decide),
    (instance_patch_mutates_image
      [[⟨1, 1, 1⟩, ⟨2, 2, 2⟩], [⟨3, 3, 3⟩, ⟨4, 4, 4⟩]] [[1, 0], [0, 0]]
      9 2 ⟨1, 0, 0, 0, 0, 2, 2⟩
      [[⟨1, 1, 1⟩, ⟨9, 9, 9⟩], [⟨9, 9, 9⟩, ⟨9, 9, 9⟩]]
      [[⟨1, 1, 1⟩, ⟨9, 9, 9⟩], [⟨9, 9, 9⟩, ⟨9, 9, 9⟩]]
      (by decide) 0 0 (by decide) (by decide)).2 (by decide)⟩

/-- Writing `some (F j)` at every index `j` of a list of indices: the
entry at `i` afterwards is `some (F i)` whenever `i` occurs in the list
(no matter in which order or how often the writes happened), and is
untouched otherwise. -/
lemma foldl_set_getElem? {α : Type} (F : ℕ → α) (l : List ℕ) :
    ∀ (acc : List (Option α)) (i : ℕ),
      (l.foldl (fun a j => a.set j (some (F j))) acc)[i]? =
        if i ∈ l ∧ i < acc.length then some (some (F i)) else acc[i]? := by
  induction l with
  | nil => intro acc i; simp
  | cons x xs ih =>
    intro acc i
    rw [List.foldl_cons, ih, List.length_set, List.getElem?_set]
    by_cases hmem : i ∈ xs
    · by_cases hlen : i < acc.length
      · simp [hmem, hlen]
      · have hnone : acc[i]? = none := List.getElem?_eq_none (by omega)
        by_cases hx : x = i <;> simp [hmem, hlen, hx, hnone]
    · by_cases hx : x = i
      · subst hx
        by_cases hlen : x < acc.length
        · simp [hmem, hlen]
        · simp [hmem, hlen, List.getElem?_eq_none (Nat.le_of_not_lt hlen)]
      · simp [hmem, hx, Ne.symm hx]

/-- One write-loop step on an identity translator item `(k, [k])` with
`1 ≤ k ≤ n`: it reads block `k - 1`, takes the mean over that single
block and stores it back at position `k - 1`. -/
lemma foldl_set_length {α : Type} (F : ℕ → α) :
    ∀ (l : List ℕ) (acc : List (Option α)),
      (l.foldl (fun a j => a.set j (some (F j))) acc).length = acc.length := by
  intro l
  induction l with
  | nil => intro acc; rfl
  | cons x xs ih => intro acc; rw [List.foldl_cons, ih, List.length_set]

/-- The batched write loop is the flat sequence of its single writes. -/
lemma deepExtractLoop_eq_flatten {α : Type} (F : ℕ → α) :
    ∀ (batches : List (List ℕ)) (init : List (Option α)),
      batches.foldl (writeBatch F) init =
        batches.flatten.foldl (fun a j => a.set j (some (F j))) init := by
  intro batches
  induction batches with
  | nil => intro init; rfl
  | cons b bs ih =>
    intro init
    rw [List.foldl_cons, List.flatten_cons, List.foldl_append, ih]
    rfl

/-- Claim C8: the deep-feature write loop keeps one row per instance and
row `i` holds the embedding of instance `i` whenever some batch carries
index `i`: the writes are addressed by the explicit instance indices
returned with each batch, so the instance-to-row correspondence holds no
matter how the parallel loader splits or orders the batches. -/
theorem deep_features_indexed_writes {α : Type} (F : ℕ → α) (n : ℕ)
    (batches : List (List ℕ))
    (hcover : ∀ i, i < n → ∃ b ∈ batches, i ∈ b) :
    (deepExtractLoop F n batches).length = n ∧
    ∀ i, i < n → (deepExtractLoop F n batches).getD i none = some (F i) := by
  constructor
  · rw [deepExtractLoop, deepExtractLoop_eq_flatten, foldl_set_length,
      List.length_replicate]
  · intro i hi
    rw [deepExtractLoop, deepExtractLoop_eq_flatten,
      List.getD_eq_getElem?_getD, foldl_set_getElem?]
    have hmem : i ∈ batches.flatten := by
      obtain ⟨b, hb, hib⟩ := hcover i hi
      exact List.mem_flatten.mpr ⟨b, hb, hib⟩
    rw [if_pos ⟨hmem, by simpa using hi⟩]
    rfl

/-- Witness for `deep_features_indexed_writes` with three instances and
the out-of-order batches `[[2, 0], [1]]`. -/
theorem deep_features_indexed_writes_witness :
    (deepExtractLoop (fun i => [(i : ℚ)]) 3 [[2, 0], [1]]).length = 3 ∧
    (deepExtractLoop (fun i => [(i : ℚ)]) 3 [[2, 0], [1]]).getD 1 none =
      some [(1 : ℚ)] :=
  ⟨(deep_features_indexed_writes (fun i => [(i : ℚ)]) 3 [[2, 0], [1]]
      (by decide)).1,
    (deep_features_indexed_writes (fun i => [(i : ℚ)]) 3 [[2, 0], [1]]
      (by decide)).2 1 (by decide)⟩

/-- Claim C9: when the dilated mask leaves `image_masked` with no
nonzero pixels, the undefined mean-over-empty comparison evaluates to
`False` (numpy: NaN compared below the threshold) and the iteration of
`GaussianTissueMask.process` stops immediately, returning the
accumulated tissue mask rather than crashing. -/
theorem gtm_empty_masked_stops (maskOf : Grid RGB → Grid ℕ)
    (imgGray : Grid ℕ) (bg : ℚ) (fuel : ℕ) (img : Grid RGB) (acc : Grid ℕ)
    (hempty : (flattenG (gridMulMask (maskOf img) imgGray)).filter
      (fun x => 0 < x) = []) :
    gtmLoop maskOf imgGray bg (fuel + 1) img acc = some acc := by
  have hc : gtmCond bg (flattenG (gridMulMask (maskOf img) imgGray)) = false := by
    rw [gtmCond]
    simp [hempty]
  simp only [gtmLoop]
  rw [hc]
  simp

/-- Witness for `gtm_empty_masked_stops`: a mask whose product with the
grayscale image is all zero stops the loop at once, returning the
accumulator. -/
theorem gtm_empty_masked_stops_witness :
    gtmLoop (fun _ => [[1]]) [[0]] 228 1 [[⟨0, 0, 0⟩]] [[0]] = some [[0]] :=
  gtm_empty_masked_stops (fun _ => [[1]]) [[0]] 228 0 [[⟨0, 0, 0⟩]] [[0]]
    (by decide)

lemma positivesG_zeroGrid (h w : ℕ) : positivesG (zeroGrid h w) = [] := by
  rw [positivesG, List.filter_eq_nil_iff]
  intro x hx
  rw [flattenG, zeroGrid, List.mem_flatten] at hx
  obtain ⟨row, hrow, hxrow⟩ := hx
  rw [List.eq_of_mem_replicate hrow] at hxrow
  rw [List.eq_of_mem_replicate hxrow]
  simp

/-- With the default `sigma = 0` a thresholding step keeps the all-zero
thumbnail all zero: the blur is skipped and a pixel below the threshold
is replaced by 0. -/
lemma otsuThreshStep_zero (otsu : List ℕ → Option ℕ)
    (blur : Grid ℕ → Grid ℕ) (h w : ℕ) :
    otsuThreshStep otsu blur 0 (zeroGrid h w) = zeroGrid h w := by
  simp only [otsuThreshStep]
  rw [if_neg (lt_irrefl (0 : ℚ))]
  simp [zeroGrid, List.map_replicate]

/-- Claim C2 is wrong about the code (code bug): on an all-zero
grayscale image (with the default `sigma = 0`) the degenerate Otsu
fallback does fire — `thumbnail[thumbnail > 0]` is empty,
`threshold_otsu` raises the `ValueError` the source catches, and the
threshold falls back to 0 — but the binarised mask is then all false,
the labelled array all zero, `np.unique` returns empty arrays, and
`unique[np.argmax(counts)]` raises an uncaught `ValueError` instead of
returning an all-false mask.  The only assumption on the external
collaborators is that `ndimage.label` maps the all-false mask to the
all-zero label grid. -/
theorem get_tissue_mask_all_zero_raises (otsu : List ℕ → Option ℕ)
    (labelCC : Grid ℕ → Grid ℕ) (blur : Grid ℕ → Grid ℕ)
    (nSteps minSize h w : ℕ)
    (hlabel : labelCC (zeroGrid h w) = zeroGrid h w) :
    getTissueMask otsu labelCC blur nSteps 0 minSize (zeroGrid h w) =
      Except.error "attempt to get argmax of an empty sequence" := by
  have hiter : (otsuThreshStep otsu blur 0)^[nSteps] (zeroGrid h w) =
      zeroGrid h w :=
    Function.iterate_fixed (otsuThreshStep_zero otsu blur h w) nSteps
  have hbin : (zeroGrid h w).map (fun row =>
      row.map (fun x => if 0 < x then (1 : ℕ) else 0)) = zeroGrid h w := by
    simp [zeroGrid, List.map_replicate]
  simp only [getTissueMask]
  rw [hiter, hbin, hlabel, positivesG_zeroGrid]
  rfl

/-- Witness for `get_tissue_mask_all_zero_raises` on a concrete 2×2
all-zero image with the source defaults (one thresholding step,
`min_size = 500`) and the identity as the labelling collaborator. -/
theorem get_tissue_mask_all_zero_raises_witness :
    getTissueMask (fun _ => none) (fun g => g) (fun g => g) 1 0 500
        (zeroGrid 2 2) =
      Except.error "attempt to get argmax of an empty sequence" :=
  get_tissue_mask_all_zero_raises (fun _ => none) (fun g => g) (fun g => g)
    1 500 2 2 rfl

lemma npIdx_coe_sub_one {k n : ℕ} (h1 : 1 ≤ k) (h2 : k ≤ n) :
    npIdx n ((k : ℤ) - 1) = some (k - 1) := by
  have h0 : (0 : ℤ) ≤ (k : ℤ) - 1 := by omega
  have hlt : (k : ℤ) - 1 < (n : ℤ) := by omega
  rw [npIdx, if_pos ⟨h0, hlt⟩]
  congr 1
  omega

lemma npSlice_length {data : List ℚ} {bs i : ℕ} (h : (i + 1) * bs ≤ data.length) :
    (npSlice data bs i).length = bs := by
  rw [Nat.succ_mul] at h
  simp only [npSlice, List.length_take, List.length_drop]
  omega

lemma zipWith_add_replicate_zero (r : List ℚ) :
    List.zipWith (· + ·) r (List.replicate r.length (0 : ℚ)) = r := by
  induction r with
  | nil => rfl
  | cons x xs ih => simp [List.replicate_succ, ih]

/-- The mean over a one-row stack is that row (exactly, in ℚ). -/
lemma meanCols_single (r : List ℚ) : meanCols r.length [r] = r := by
  simp [meanCols, sumCols, zipWith_add_replicate_zero r]

lemma mergeStep_id {data : List ℚ} {bs n k : ℕ} (h1 : 1 ≤ k) (h2 : k ≤ n)
    (hlen : n * bs ≤ data.length) (acc : List (Option (List ℚ))) :
    mergeStep n bs n data acc (k, [k]) =
      Except.ok (acc.set (k - 1) (some (npSlice data bs (k - 1)))) := by
  have hidx := npIdx_coe_sub_one h1 h2
  have hbs : (npSlice data bs (k - 1)).length = bs :=
    npSlice_length (by
      have : (k - 1 + 1) * bs ≤ n * bs := Nat.mul_le_mul_right bs (by omega)
      omega)
  have hmean : meanCols bs [npSlice data bs (k - 1)] = npSlice data bs (k - 1) := by
    have h0 := meanCols_single (npSlice data bs (k - 1))
    rw [hbs] at h0
    exact h0
  have hmap : gatherRows n bs data [k] = Except.ok [npSlice data bs (k - 1)] := by
    simp [gatherRows, hidx, except_map_ok]
  show (gatherRows n bs data [k] >>= fun rows =>
    if rows.isEmpty then Except.error "mean of empty selection" else
    match npIdx n ((k : ℤ) - 1) with
    | some j => Except.ok (acc.set j (some (meanCols bs rows)))
    | none => Except.error "IndexError") =
    Except.ok (acc.set (k - 1) (some (npSlice data bs (k - 1))))
  rw [hmap, except_bind_ok]
  simp [hidx, hmean]

/-- Running the whole write loop on identity items `(k, [k])` succeeds and
equals the pure fold of the single-block writes. -/
lemma foldlM_mergeStep_id {data : List ℚ} {bs n : ℕ} (hlen : n * bs ≤ data.length) :
    ∀ (ks : List ℕ) (acc : List (Option (List ℚ))),
      (∀ k ∈ ks, 1 ≤ k ∧ k ≤ n) →
      (ks.map (fun k => (k, [k]))).foldlM (mergeStep n bs n data) acc =
        Except.ok (ks.foldl
          (fun a k => a.set (k - 1) (some (npSlice data bs (k - 1)))) acc) := by
  intro ks
  induction ks with
  | nil => intro acc _; rfl
  | cons k ks ih =>
    intro acc hks
    have hk := hks k (List.mem_cons_self ..)
    rw [List.map_cons, List.foldlM_cons, mergeStep_id hk.1 hk.2 hlen acc,
      except_bind_ok, List.foldl_cons]
    exact ih _ (fun j hj => hks j (List.mem_cons_of_mem _ hj))

/-- Collecting a fully-written output buffer returns exactly its rows. -/
lemma collectRows_map_some (rows : List (List ℚ)) :
    collectRows (rows.map some) = Except.ok rows := by
  induction rows with
  | nil => rfl
  | cons r rs ih =>
    rw [collectRows] at ih ⊢
    rw [List.map_cons, List.mapM_cons, ih]
    rfl

/-- Cutting a flat buffer of length `n * bs` into its `n` blocks and
re-concatenating them gives back the buffer. -/
lemma flatten_map_npSlice (bs : ℕ) :
    ∀ (n : ℕ) (data : List ℚ), data.length = n * bs →
      ((List.range n).map (fun i => npSlice data bs i)).flatten = data := by
  intro n
  induction n with
  | zero =>
    intro data h
    simp only [Nat.zero_mul] at h
    simp [List.eq_nil_of_length_eq_zero h]
  | succ n ih =>
    intro data h
    rw [Nat.succ_mul] at h
    rw [List.range_succ, List.map_append, List.flatten_append]
    have hslice : ∀ i ∈ List.range n,
        npSlice data bs i = npSlice (data.take (n * bs)) bs i := by
      intro i hi
      rw [List.mem_range] at hi
      simp only [npSlice, List.drop_take, List.take_take]
      congr 1
      have h1 : (i + 1) * bs ≤ n * bs := Nat.mul_le_mul_right bs (by omega)
      rw [Nat.succ_mul] at h1
      omega
    rw [List.map_congr_left hslice,
      ih (data.take (n * bs)) (by simp [List.length_take]; omega)]
    have hlast : npSlice data bs n = data.drop (n * bs) := by
      have hdl : (data.drop (n * bs)).length ≤ bs := by
        simp only [List.length_drop]; omega
      simp only [npSlice]
      exact List.take_of_length_le hdl
    simp [hlast]

lemma idTranslator_length (n : ℕ) : (idTranslator n).length = n := by
  simp [idTranslator]

/-- The identity translator is the identity write list on ids `1..n`. -/
lemma idTranslator_eq_map (n : ℕ) :
    idTranslator n = ((List.range n).map (· + 1)).map (fun k => (k, [k])) := by
  simp [idTranslator, List.map_map, Function.comp]

/-- Claim C5: `AverageFeatureMerger.process` dispatches rank-2 feature
tensors to `_merge_features`, rank-3 tensors to
`_merge_augmented_features`, and for a feature tensor of any other rank
raises `NotImplementedError` instead of returning a result. -/
theorem average_merger_rank_dispatch (t : Tensor) (tr : Translator) :
    (t.shape.length = 2 → averageMergerProcess t tr = mergeFeaturesT t tr) ∧
    (t.shape.length = 3 → averageMergerProcess t tr = mergeAugmentedFeaturesT t tr) ∧
    (t.shape.length ≠ 2 → t.shape.length ≠ 3 →
      averageMergerProcess t tr = Except.error "NotImplementedError") := by
  refine ⟨fun h2 => ?_, fun h3 => ?_, fun h2 h3 => ?_⟩ <;>
    simp [averageMergerProcess, *]

/-- Witness for `average_merger_rank_dispatch`: a rank-4 tensor is
rejected with `NotImplementedError` and a rank-2 tensor is dispatched to
the plain merge. -/
theorem average_merger_rank_dispatch_witness :
    averageMergerProcess ⟨[1, 1, 1, 1], [0]⟩ [] = Except.error "NotImplementedError" ∧
    averageMergerProcess ⟨[1, 2], [0, 0]⟩ (idTranslator 1) =
      mergeFeaturesT ⟨[1, 2], [0, 0]⟩ (idTranslator 1) :=
  ⟨(average_merger_rank_dispatch ⟨[1, 1, 1, 1], [0]⟩ []).2.2
      (by decide) (by decide),
    (average_merger_rank_dispatch ⟨[1, 2], [0, 0]⟩ (idTranslator 1)).1 (by decide)⟩

/-- Core of claim C6, shared by the rank-2 and rank-3 cases: the write
loop at block size `bs` over the identity translator succeeds and fills
every output position with the corresponding block of the input buffer. -/
lemma merge_fold_identity {data : List ℚ} {bs n : ℕ} (h : data.length = n * bs) :
    (idTranslator n).foldlM (mergeStep n bs n data)
        (List.replicate n (none : Option (List ℚ))) =
      Except.ok (((List.range n).map (fun i => npSlice data bs i)).map some) := by
  rw [idTranslator_eq_map,
    foldlM_mergeStep_id (by omega) ((List.range n).map (· + 1)) _
      (by intro k hk; rw [List.mem_map] at hk; obtain ⟨j, hj, rfl⟩ := hk
          rw [List.mem_range] at hj; omega)]
  congr 1
  rw [List.foldl_map]
  have hsimp : (fun (a : List (Option (List ℚ))) (j : ℕ) =>
      a.set (j + 1 - 1) (some (npSlice data bs (j + 1 - 1)))) =
      (fun a j => a.set j (some (npSlice data bs j))) := by
    funext a j; simp
  rw [hsimp]
  apply List.ext_getElem?
  intro i
  rw [foldl_set_getElem? (fun j => npSlice data bs j) (List.range n)]
  by_cases hi : i < n
  · simp [hi, List.mem_range, List.getElem?_map, List.getElem?_range hi]
  · have h1 : (List.replicate n (none : Option (List ℚ)))[i]? = none :=
      List.getElem?_eq_none (by simp; omega)
    have h2 : (List.range n)[i]? = none :=
      List.getElem?_eq_none (by simp; omega)
    simp [hi, List.mem_range, h1, h2]

/-- Claim C6: merging a feature matrix with the identity translator
(each merged id `k` in `1..n` maps to exactly `[k]`) returns the input
unchanged, both for rank-2 `(instance, feature)` matrices and for rank-3
`(instance, augmentation, feature)` matrices; every output row is the
mean of the single corresponding input row, which in exact arithmetic is
that row itself. -/
theorem average_merger_identity (n d a : ℕ) (data : List ℚ) :
    (data.length = n * d →
      averageMergerProcess ⟨[n, d], data⟩ (idTranslator n) =
        Except.ok ⟨[n, d], data⟩) ∧
    (data.length = n * (a * d) →
      averageMergerProcess ⟨[n, a, d], data⟩ (idTranslator n) =
        Except.ok ⟨[n, a, d], data⟩) := by
  constructor
  · intro h
    show ((idTranslator n).foldlM (mergeStep n d (idTranslator n).length data)
        (List.replicate (idTranslator n).length (none : Option (List ℚ)))) >>=
        (fun out => collectRows out >>= fun rows =>
          Except.ok (Tensor.mk [(idTranslator n).length, d] rows.flatten)) =
        Except.ok (Tensor.mk [n, d] data)
    rw [idTranslator_length, merge_fold_identity h, except_bind_ok,
      collectRows_map_some, except_bind_ok, flatten_map_npSlice d n data h]
  · intro h
    show ((idTranslator n).foldlM (mergeStep n (a * d) (idTranslator n).length data)
        (List.replicate (idTranslator n).length (none : Option (List ℚ)))) >>=
        (fun out => collectRows out >>= fun rows =>
          Except.ok (Tensor.mk [(idTranslator n).length, a, d] rows.flatten)) =
        Except.ok (Tensor.mk [n, a, d] data)
    rw [idTranslator_length, merge_fold_identity h, except_bind_ok,
      collectRows_map_some, except_bind_ok, flatten_map_npSlice (a * d) n data h]

/-- Witness for `average_merger_identity`: a concrete 2 × 2 matrix and a
concrete 1 × 3 × 2 tensor pass through the identity merge unchanged. -/
theorem average_merger_identity_witness :
    averageMergerProcess ⟨[2, 2], [1, 2, 3, 4]⟩ (idTranslator 2) =
      Except.ok ⟨[2, 2], [1, 2, 3, 4]⟩ ∧
    averageMergerProcess ⟨[1, 3, 2], [1, 2, 3, 4, 5, 6]⟩ (idTranslator 1) =
      Except.ok ⟨[1, 3, 2], [1, 2, 3, 4, 5, 6]⟩ :=
  ⟨(average_merger_identity 2 2 0 [1, 2, 3, 4]).1 (by decide),
    (average_merger_identity 1 2 3 [1, 2, 3, 4, 5, 6]).2 (by decide)⟩

end Histo
